import Mathlib

/-!
# A shallow embedding of the `gen_arena` generational arena

This file models the Rust library in `src/lib.rs` (crate `gen_arena`):
a generational slot-based object store.  The translation conventions:

* `Vec<Slot<T>>` becomes `List (Slot T)`; indices, generations and the
  free count (`u32` / `usize` in the source) become `Nat`.  Counter
  overflow is out of scope (the spec lists generation-counter exhaustion
  as an explicit non-goal), so increments are plain `Nat` successor.
* The one place where unsigned subtraction can underflow on reachable
  inputs (`Arena::reserve`) models the subtraction as a checked
  operation, so the Rust panic shows up as an `Except.error`.
* Functions that can panic (`free_index` with its `unreachable!()` arm,
  indexing via `Index`/`IndexMut`) return `Except String`; the error
  string stands for the panic message.
* `&T` / `&mut T` results are modelled by the value itself; mutation is
  explicit state passing (every mutating method returns a new `Arena`).
* `IterMut` and `IntoIter` have, in the source, fields and method
  bodies identical to `Iter` up to the reference kind of the yielded
  items, so a single `Iter` structure models all three.
-/

namespace GenArena

variable {T : Type}

/-- Handle type: `pub struct Id { index: u32, generation: u32 }`. -/
structure Id where
  index : Nat
  generation : Nat
deriving DecidableEq

/-- `enum Entry<T> { Present(T), Free { next_free: u32 } }`. -/
inductive Entry (T : Type) where
  | Present : T → Entry T
  | Free : Nat → Entry T
deriving DecidableEq

/-- `struct Slot<T> { generation: u32, entry: Entry<T> }`. -/
structure Slot (T : Type) where
  generation : Nat
  entry : Entry T
deriving DecidableEq

/-- `struct Arena<T> { slots: Vec<Slot<T>>, first_free: u32, free_count: u32 }`. -/
structure Arena (T : Type) where
  slots : List (Slot T)
  first_free : Nat
  free_count : Nat
deriving DecidableEq

/-- `Entry::take`: replace the entry with a free link, return the old value. -/
def Entry.take (e : Entry T) (next_free : Nat) : Entry T × Option T :=
  (Entry.Free next_free, match e with
    | .Present t => some t
    | .Free _ => none)

/-- `Slot::isFree` (not in the source; counts `Free` entries). -/
def Slot.isFree (s : Slot T) : Bool :=
  match s.entry with
  | .Free _ => true
  | .Present _ => false

/-- Whether the slot holds a value. -/
def Slot.isPresent (s : Slot T) : Bool :=
  match s.entry with
  | .Present _ => true
  | .Free _ => false

/-- `Arena::new()` / `with_capacity` (capacity is not observable here). -/
def arenaEmpty (T : Type) : Arena T :=
  { slots := [], first_free := 0, free_count := 0 }

/-- `Arena::clear`: `self.slots.clear(); self.free_count = 0;`.
Note the source does not reset `first_free`. -/
def Arena.clear (a : Arena T) : Arena T :=
  { a with slots := [], free_count := 0 }

/-- Checked `usize` subtraction: underflow is a Rust panic in debug mode
(and in `Arena::reserve` leads to a capacity-overflow abort in release
mode), modelled as an error. -/
def usizeSub (x y : Nat) : Except String Nat :=
  if y ≤ x then Except.ok (x - y) else Except.error "attempt to subtract with overflow"

/-- `Arena::reserve`: returns the amount handed to `Vec::reserve`
(`ok 0` on the early-return path).  The source computes
`self.slots.reserve(free - additional)` after checking
`additional <= free` — note the operand order of the subtraction. -/
def Arena.reserve (a : Arena T) (additional : Nat) : Except String Nat :=
  let free := a.free_count
  if additional ≤ free then Except.ok 0
  else usizeSub free additional

/-- `Arena::len`: `self.slots.len() - free_count`. -/
def Arena.len (a : Arena T) : Nat :=
  a.slots.length - a.free_count

/-- `Arena::is_empty`. -/
def Arena.is_empty (a : Arena T) : Bool :=
  a.len == 0

/-- `Arena::exists_raw`: bounds check plus generation equality.
Note the source does not inspect the entry. -/
def Arena.exists_raw (a : Arena T) (id : Id) : Bool :=
  match a.slots[id.index]? with
  | none => false
  | some item => id.generation == item.generation

/-- `Arena::get_raw`. -/
def Arena.get_raw (a : Arena T) (id : Id) : Option T :=
  match a.slots[id.index]? with
  | none => none
  | some slot =>
    if id.generation ≠ slot.generation then none
    else match slot.entry with
      | .Present item => some item
      | .Free _ => none

/-- `Arena::get_mut_raw`: same logic as `get_raw` with a mutable
reference result. -/
def Arena.get_mut_raw (a : Arena T) (id : Id) : Option T :=
  match a.slots[id.index]? with
  | none => none
  | some slot =>
    if id.generation ≠ slot.generation then none
    else match slot.entry with
      | .Present item => some item
      | .Free _ => none

/-- Replace the entry at index `i`, keeping the generation
(`self.slots[index].entry = ...`).  Out of bounds would be a Rust
panic; every use site is in bounds (guaranteed by `free_index`). -/
def setEntry (l : List (Slot T)) (i : Nat) (e : Entry T) : List (Slot T) :=
  match l[i]? with
  | some s => l.set i { s with entry := e }
  | none => l

/-- `Arena::free_index`: pop the free list head, or push a fresh slot.
The `Present` arm of the match is the source's `unreachable!()`. -/
def Arena.free_index (a : Arena T) : Except String (Arena T × Id) :=
  if 0 < a.free_count then
    match a.slots[a.first_free]? with
    | none => Except.error "index out of bounds"
    | some item =>
      match item.entry with
      | .Free next_free =>
        Except.ok ({ a with first_free := next_free, free_count := a.free_count - 1 },
          { index := a.first_free, generation := item.generation })
      | .Present _ => Except.error "internal error: entered unreachable code"
  else
    Except.ok ({ a with slots := a.slots ++ [{ generation := 0, entry := Entry.Free 0 }] },
      { index := a.slots.length, generation := 0 })

/-- `Arena::insert_raw`. -/
def Arena.insert_raw (a : Arena T) (t : T) : Except String (Arena T × Id) :=
  match a.free_index with
  | Except.error e => Except.error e
  | Except.ok (a1, id) =>
    Except.ok ({ a1 with slots := setEntry a1.slots id.index (Entry.Present t) }, id)

/-- `Arena::remove_raw`.  On a validated handle the slot's generation is
bumped, the entry is taken (`Entry::take` with the old free-list head as
the new link), the slot becomes the free-list head and the free count
grows. -/
def Arena.remove_raw (a : Arena T) (id : Id) : Arena T × Option T :=
  if a.exists_raw id then
    match a.slots[id.index]? with
    | some item =>
      ({ slots := a.slots.set id.index
            { generation := item.generation + 1, entry := Entry.Free a.first_free },
         first_free := id.index,
         free_count := a.free_count + 1 },
       (item.entry.take a.first_free).2)
    | none => (a, none)
  else
    (a, none)

/-- `Display for Id`: `write!(f, "Id({}, {})", self.index, self.generation)`. -/
def idDisplay (id : Id) : String :=
  "Id(" ++ toString id.index ++ ", " ++ toString id.generation ++ ")"

/-- `Index<Id> for Arena`: `get_raw` that panics (here: errors) with the
source's message when the handle does not resolve. -/
def Arena.indexGet (a : Arena T) (id : Id) : Except String T :=
  match a.get_raw id with
  | some item => Except.ok item
  | none => Except.error ("Index " ++ idDisplay id ++ " does not exist in Arena")

/-- `IndexMut<Id> for Arena`: same on `get_mut_raw`. -/
def Arena.indexGetMut (a : Arena T) (id : Id) : Except String T :=
  match a.get_mut_raw id with
  | some item => Except.ok item
  | none => Except.error ("Index " ++ idDisplay id ++ " does not exist in Arena")

/-- `FromIterator for Arena`: every item becomes a generation-0 present
slot, `first_free = 0`, `free_count = 0`. -/
def Arena.fromList (l : List T) : Arena T :=
  { slots := l.map (fun a => { generation := 0, entry := Entry.Present a }),
    first_free := 0, free_count := 0 }

/-- `Extend for Arena`: `insert_raw` every item in order. -/
def Arena.extend (a : Arena T) (l : List T) : Except String (Arena T) :=
  l.foldlM (fun acc t => (acc.insert_raw t).map Prod.fst) a

/-- Number of `Free` slots. -/
def countFree (l : List (Slot T)) : Nat :=
  (l.filter (fun s => s.isFree)).length

/-- Number of `Present` slots. -/
def countPresent (l : List (Slot T)) : Nat :=
  (l.filter (fun s => s.isPresent)).length

/-- The values of the `Present` slots, in slot order. -/
def presentValues (l : List (Slot T)) : List T :=
  l.filterMap (fun s =>
    match s.entry with
    | .Present t => some t
    | .Free _ => none)

/-- The current-generation handles of the `Present` slots, in slot
order, starting at index `i`. -/
def presentIdsAux : List (Slot T) → Nat → List Id
  | [], _ => []
  | s :: rest, i =>
    match s.entry with
    | .Present _ => { index := i, generation := s.generation } :: presentIdsAux rest (i + 1)
    | .Free _ => presentIdsAux rest (i + 1)

/-- The handles that resolve to a value through `get_raw`. -/
def presentIds (a : Arena T) : List Id :=
  presentIdsAux a.slots 0

/-!
## Operation traces

`TraceFrom a m` relates a start state (arena `a`, handles `m` issued so
far) to every state reachable from it by public `insert` and `remove`
calls in which each removed handle was previously issued — exactly what
a Rust caller can do, since `Id` has no public constructor.  `clear` is
deliberately absent here; `runPubIds` below executes arbitrary public
operation lists including `clear`.
-/

/-- Reachability by public `insert`/`remove` calls, tracking issued
handles.  Removals may only use handles issued earlier. -/
inductive TraceFrom (a0 : Arena T) (m0 : List Id) : Arena T → List Id → Prop where
  | refl : TraceFrom a0 m0 a0 m0
  | insert {a : Arena T} {m : List Id} {t : T} {a1 : Arena T} {id : Id} :
      TraceFrom a0 m0 a m → a.insert_raw t = Except.ok (a1, id) →
      TraceFrom a0 m0 a1 (id :: m)
  | remove {a : Arena T} {m : List Id} {id : Id} :
      TraceFrom a0 m0 a m → id ∈ m →
      TraceFrom a0 m0 (a.remove_raw id).1 m

/-- Reachability from the empty arena. -/
def Reach (a : Arena T) (m : List Id) : Prop :=
  TraceFrom (arenaEmpty T) [] a m

/-- The issued-handle invariant: every issued handle points into the
slot list, its generation never exceeds the slot's current generation,
and when the generations agree the slot holds a value. -/
def MintedOk (a : Arena T) (m : List Id) : Prop :=
  ∀ id ∈ m, ∃ s, a.slots[id.index]? = some s ∧ id.generation ≤ s.generation ∧
    (id.generation = s.generation → s.isPresent = true)

/-- The state invariant maintained by `insert`/`remove` traces. -/
def Arena.Inv (a : Arena T) (m : List Id) : Prop :=
  a.free_count = countFree a.slots ∧ MintedOk a m

/-!
## Public operations as data

Used to evaluate concrete operation sequences (including `clear`)
against the code, with the handles each insertion issued recorded in
order. -/

/-- One public mutating call. -/
inductive POp (T : Type) where
  | insert : T → POp T
  | remove : Id → POp T
  | clear : POp T
deriving DecidableEq

/-- Execute one public call, appending any issued handle. -/
def stepPub (acc : Arena T × List Id) (op : POp T) : Except String (Arena T × List Id) :=
  match op with
  | .insert t => (acc.1.insert_raw t).map (fun r => (r.1, acc.2 ++ [r.2]))
  | .remove id => Except.ok ((acc.1.remove_raw id).1, acc.2)
  | .clear => Except.ok (acc.1.clear, acc.2)

/-- Run a list of public calls from a state, collecting issued handles. -/
def runPubIds (a : Arena T) (ops : List (POp T)) : Except String (Arena T × List Id) :=
  ops.foldlM stepPub (a, [])

/-- Run a list of public calls, returning the final arena. -/
def runPub (a : Arena T) (ops : List (POp T)) : Except String (Arena T) :=
  (runPubIds a ops).map Prod.fst

/-!
## Iterators

One structure models `Iter`, `IterMut` and `IntoIter`: in the source the
three have the same fields and the same `next`, `next_back` and
`size_hint` bodies, differing only in whether items are yielded by
reference, mutable reference or value.  `slots` is the not-yet-consumed
middle segment of the slot sequence. -/

/-- Iterator state (`Iter` / `IterMut` / `IntoIter`). -/
structure Iter (T : Type) where
  slots : List (Slot T)
  length : Nat
  returned : Nat
deriving DecidableEq

/-- The scan loop of `Iterator::next`: consume slots from the front
until a present one is found, returning its value and the remainder. -/
def firstPresent : List (Slot T) → Option (T × List (Slot T))
  | [] => none
  | s :: rest =>
    match s.entry with
    | .Present t => some (t, rest)
    | .Free _ => firstPresent rest

/-- The scan loop of `DoubleEndedIterator::next_back`: consume slots
from the back until a present one is found. -/
def lastPresent (l : List (Slot T)) : Option (T × List (Slot T)) :=
  match firstPresent l.reverse with
  | none => none
  | some (t, r) => some (t, r.reverse)

/-- `Iterator::next` for the arena iterators. -/
def Iter.next (it : Iter T) : Option (T × Iter T) :=
  match firstPresent it.slots with
  | none => none
  | some (t, rest) => some (t, { slots := rest, length := it.length, returned := it.returned + 1 })

/-- `DoubleEndedIterator::next_back` for the arena iterators. -/
def Iter.nextBack (it : Iter T) : Option (T × Iter T) :=
  match lastPresent it.slots with
  | none => none
  | some (t, rest) => some (t, { slots := rest, length := it.length, returned := it.returned + 1 })

/-- `size_hint`: `(length - returned, Some(length - returned))`. -/
def Iter.sizeHint (it : Iter T) : Nat × Option Nat :=
  (it.length - it.returned, some (it.length - it.returned))

/-- `Arena::iter` / `iter_mut` / `into_iter`: full slot range,
`length = self.len()`, `returned = 0`. -/
def Arena.iter (a : Arena T) : Iter T :=
  { slots := a.slots, length := a.len, returned := 0 }

/-- Drive an iterator by a list of calls (`true` = `next`,
`false` = `next_back`), collecting the yielded items in call order. -/
def runCalls : Iter T → List Bool → List T × Iter T
  | it, [] => ([], it)
  | it, d :: ds =>
    match (if d then it.next else it.nextBack) with
    | none => runCalls it ds
    | some (t, it2) =>
      let r := runCalls it2 ds
      (t :: r.1, r.2)

/-- The iterator-state invariant: the size bookkeeping matches the
number of present slots left to yield. -/
def GoodIter (it : Iter T) : Prop :=
  it.returned ≤ it.length ∧ it.length - it.returned = countPresent it.slots

/-!
## List helpers
-/

theorem set_append_len {α : Type} (l : List α) (x y : α) :
    (l ++ [x]).set l.length y = l ++ [y] := by
  induction l with
  | nil => rfl
  | cons a rest ih => simp [List.set, ih]

theorem getElem_append_singleton {α : Type} (l : List α) (x : α) (k : Nat) :
    (l ++ [x])[k]? = if k < l.length then l[k]? else if k = l.length then some x else none := by
  rcases Nat.lt_trichotomy k l.length with h | h | h
  · simp [List.getElem?_append_left h, h]
  · subst h
    simp
  · have h1 : ¬ k < l.length := Nat.not_lt.2 (Nat.le_of_lt h)
    have h2 : k ≠ l.length := Nat.ne_of_gt h
    rw [List.getElem?_append]
    simp only [h1, if_false, h2]
    have h3 : l.length ≤ k := Nat.le_of_lt h
    have h4 : 1 ≤ k - l.length := by omega
    have : ([x] : List α)[k - l.length]? = none := by
      apply List.getElem?_eq_none
      simpa using h4
    simp [this, h1, h2]

theorem getElem_of_mem_bound {α : Type} {l : List α} {k : Nat} {x : α}
    (h : l[k]? = some x) : k < l.length := by
  by_contra hk
  rw [List.getElem?_eq_none (Nat.not_lt.1 hk)] at h
  exact Option.noConfusion h

/-!
## Counting lemmas
-/

theorem isPresent_not_isFree (s : Slot T) : s.isPresent = !s.isFree := by
  cases s with
  | mk g e => cases e <;> rfl

theorem countPresent_cons (s : Slot T) (l : List (Slot T)) :
    countPresent (s :: l) = countPresent l + (if s.isPresent then 1 else 0) := by
  unfold countPresent
  rw [List.filter_cons]
  by_cases h : s.isPresent <;> simp [h]

theorem countFree_cons (s : Slot T) (l : List (Slot T)) :
    countFree (s :: l) = countFree l + (if s.isFree then 1 else 0) := by
  unfold countFree
  rw [List.filter_cons]
  by_cases h : s.isFree <;> simp [h]

theorem countPresent_add_countFree (l : List (Slot T)) :
    countPresent l + countFree l = l.length := by
  induction l with
  | nil => rfl
  | cons s rest ih =>
    rw [countPresent_cons, countFree_cons, isPresent_not_isFree]
    cases h : s.isFree <;> simp [h] <;> omega

theorem countFree_le (l : List (Slot T)) : countFree l ≤ l.length :=
  List.length_filter_le _ l

theorem countPresent_le (l : List (Slot T)) : countPresent l ≤ l.length :=
  List.length_filter_le _ l

theorem countFree_set {l : List (Slot T)} {i : Nat} {s : Slot T}
    (hs : l[i]? = some s) (s' : Slot T) :
    countFree (l.set i s') + (if s.isFree then 1 else 0) =
      countFree l + (if s'.isFree then 1 else 0) := by
  induction l generalizing i with
  | nil => exact absurd hs (by simp)
  | cons a rest ih =>
    cases i with
    | zero =>
      simp only [List.getElem?_cons_zero, Option.some.injEq] at hs
      subst hs
      show countFree (s' :: rest) + _ = _
      rw [countFree_cons, countFree_cons]
      omega
    | succ j =>
      simp only [List.getElem?_cons_succ] at hs
      show countFree (a :: rest.set j s') + _ = _
      rw [countFree_cons, countFree_cons]
      have := ih hs
      omega

theorem countFree_append_singleton (l : List (Slot T)) (s : Slot T) :
    countFree (l ++ [s]) = countFree l + (if s.isFree then 1 else 0) := by
  unfold countFree
  rw [List.filter_append]
  by_cases h : s.isFree <;> simp [List.filter, h]

/-!
## Operation characterizations
-/

theorem exists_raw_iff (a : Arena T) (id : Id) :
    a.exists_raw id = true ↔
      ∃ s, a.slots[id.index]? = some s ∧ id.generation = s.generation := by
  unfold Arena.exists_raw
  cases h : a.slots[id.index]? with
  | none => simp
  | some s => simp [beq_iff_eq]

theorem exists_raw_false_iff (a : Arena T) (id : Id) :
    a.exists_raw id = false ↔
      ∀ s, a.slots[id.index]? = some s → id.generation ≠ s.generation := by
  rw [← Bool.not_eq_true, exists_raw_iff]
  constructor
  · intro h s hs hg
    exact h ⟨s, hs, hg⟩
  · rintro h ⟨s, hs, hg⟩
    exact h s hs hg

theorem get_raw_of_mismatch {a : Arena T} {id : Id} {s : Slot T}
    (hs : a.slots[id.index]? = some s) (hg : id.generation ≠ s.generation) :
    a.get_raw id = none := by
  unfold Arena.get_raw
  rw [hs]
  simp [hg]

/-- Case analysis for a successful `insert_raw`: either the free-list
head was popped, or a fresh slot was appended. -/
theorem insert_spec {a : Arena T} {t : T} {a1 : Arena T} {id : Id}
    (h : a.insert_raw t = Except.ok (a1, id)) :
    (∃ s nf, a.slots[id.index]? = some s ∧ s.entry = Entry.Free nf ∧
       id.generation = s.generation ∧ a.first_free = id.index ∧ 0 < a.free_count ∧
       a1 = { slots := a.slots.set id.index { generation := s.generation, entry := Entry.Present t },
              first_free := nf, free_count := a.free_count - 1 }) ∨
    (id.index = a.slots.length ∧ id.generation = 0 ∧ a.free_count = 0 ∧
       a1 = { slots := a.slots ++ [{ generation := 0, entry := Entry.Present t }],
              first_free := a.first_free, free_count := a.free_count }) := by
  unfold Arena.insert_raw Arena.free_index at h
  by_cases hf : 0 < a.free_count
  · rw [if_pos hf] at h
    cases hs : a.slots[a.first_free]? with
    | none =>
      simp only [hs] at h
      exact Except.noConfusion h
    | some s =>
      cases he : s.entry with
      | Present t0 =>
        simp only [hs, he] at h
        exact Except.noConfusion h
      | Free nf =>
        simp only [hs, he, Except.ok.injEq, Prod.mk.injEq] at h
        obtain ⟨ha1, hid⟩ := h
        left
        refine ⟨s, nf, ?_, he, ?_, ?_, hf, ?_⟩
        · rw [← hid]; exact hs
        · rw [← hid]
        · rw [← hid]
        · rw [← ha1, ← hid]
          unfold setEntry
          simp only [hs]
  · rw [if_neg hf] at h
    simp only [Except.ok.injEq, Prod.mk.injEq] at h
    obtain ⟨ha1, hid⟩ := h
    right
    have hfc : a.free_count = 0 := Nat.eq_zero_of_not_pos hf
    refine ⟨by rw [← hid], by rw [← hid], hfc, ?_⟩
    rw [← ha1]
    unfold setEntry
    have hlook : (a.slots ++ [({ generation := 0, entry := Entry.Free 0 } : Slot T)])[a.slots.length]? =
        some { generation := 0, entry := Entry.Free 0 } := by
      rw [getElem_append_singleton]
      simp
    simp only [hlook, set_append_len]

theorem insert_lookup {a : Arena T} {t : T} {a1 : Arena T} {id : Id}
    (h : a.insert_raw t = Except.ok (a1, id)) :
    a1.slots[id.index]? = some { generation := id.generation, entry := Entry.Present t } := by
  rcases insert_spec h with ⟨s, nf, hs, he, hg, hff, hfc, ha1⟩ | ⟨hi, hg, hfc, ha1⟩
  · subst ha1
    have hk := getElem_of_mem_bound hs
    simp only []
    rw [List.getElem?_set_eq_of_lt _ (by simpa using hk), hg]
  · subst ha1
    simp only []
    rw [getElem_append_singleton]
    simp [hi, hg]

theorem insert_lookup_other {a : Arena T} {t : T} {a1 : Arena T} {id : Id}
    (h : a.insert_raw t = Except.ok (a1, id)) {k : Nat} (hk : k ≠ id.index) :
    a1.slots[k]? = a.slots[k]? := by
  rcases insert_spec h with ⟨s, nf, hs, he, hg, hff, hfc, ha1⟩ | ⟨hi, hg, hfc, ha1⟩
  · subst ha1
    exact List.getElem?_set_ne (by omega)
  · subst ha1
    simp only []
    rw [getElem_append_singleton]
    by_cases hlt : k < a.slots.length
    · simp [hlt]
    · have : k ≠ a.slots.length := by omega
      simp [hlt, this, List.getElem?_eq_none (Nat.not_lt.1 hlt)]

theorem remove_spec_neg {a : Arena T} {id : Id} (h : a.exists_raw id = false) :
    a.remove_raw id = (a, none) := by
  unfold Arena.remove_raw
  simp [h]

theorem remove_spec_pos {a : Arena T} {id : Id} {s : Slot T}
    (hs : a.slots[id.index]? = some s) (hg : id.generation = s.generation) :
    a.remove_raw id =
      ({ slots := a.slots.set id.index
            { generation := s.generation + 1, entry := Entry.Free a.first_free },
         first_free := id.index, free_count := a.free_count + 1 },
       match s.entry with | .Present t => some t | .Free _ => none) := by
  have he : a.exists_raw id = true := (exists_raw_iff a id).2 ⟨s, hs, hg⟩
  unfold Arena.remove_raw
  rw [if_pos he, hs]
  unfold Entry.take
  rfl

/-!
## Invariant preservation
-/

theorem inv_empty : (arenaEmpty T).Inv [] := by
  constructor
  · rfl
  · intro id h
    exact absurd h (List.not_mem_nil id)


theorem lookup_unique {l : List (Slot T)} {i : Nat} {s1 s2 : Slot T}
    (h1 : l[i]? = some s1) (h2 : l[i]? = some s2) : s1 = s2 := by
  rw [h1] at h2
  exact Option.some.inj h2

theorem isFree_eq_false {s : Slot T} (h : s.isPresent = true) : s.isFree = false := by
  rw [isPresent_not_isFree] at h
  cases hb : s.isFree with
  | false => rfl
  | true =>
    rw [hb] at h
    simp at h

theorem countFree_set_toPresent {l : List (Slot T)} {i : Nat} {s : Slot T}
    (hs : l[i]? = some s) (hF : s.isFree = true) (s' : Slot T) (hP : s'.isFree = false) :
    countFree (l.set i s') + 1 = countFree l := by
  have h := countFree_set hs s'
  rw [hF, hP] at h
  simpa using h

theorem countFree_set_toFree {l : List (Slot T)} {i : Nat} {s : Slot T}
    (hs : l[i]? = some s) (hF : s.isFree = false) (s' : Slot T) (hP : s'.isFree = true) :
    countFree (l.set i s') = countFree l + 1 := by
  have h := countFree_set hs s'
  rw [hF, hP] at h
  simpa using h

theorem inv_insert {a : Arena T} {m : List Id} {t : T} {a1 : Arena T} {id : Id}
    (hInv : a.Inv m) (h : a.insert_raw t = Except.ok (a1, id)) : a1.Inv (id :: m) := by
  obtain ⟨hcount, hmint⟩ := hInv
  rcases insert_spec h with ⟨s, nf, hs, he, hg, hff, hfc, ha1⟩ | ⟨hi, hg, hfc, ha1⟩
  · have hsF : s.isFree = true := by unfold Slot.isFree; rw [he]
    have hbound : id.index < a.slots.length := getElem_of_mem_bound hs
    subst ha1
    constructor
    · show a.free_count - 1 = countFree (a.slots.set id.index _)
      have hset := countFree_set_toPresent hs hsF
        ({ generation := s.generation, entry := Entry.Present t } : Slot T) rfl
      omega
    · intro id2 hid2
      rcases List.mem_cons.1 hid2 with rfl | hid2
      · refine ⟨{ generation := s.generation, entry := Entry.Present t }, ?_,
          Nat.le_of_eq hg, fun _ => rfl⟩
        show (a.slots.set id2.index _)[id2.index]? = _
        exact List.getElem?_set_eq_of_lt _ hbound
      · obtain ⟨s2, hs2, hle, hpres⟩ := hmint id2 hid2
        by_cases hk : id2.index = id.index
        · have hss : s2 = s := lookup_unique (hk ▸ hs2) hs
          refine ⟨{ generation := s.generation, entry := Entry.Present t }, ?_, ?_, fun _ => rfl⟩
          · show (a.slots.set id.index _)[id2.index]? = _
            rw [hk]
            exact List.getElem?_set_eq_of_lt _ hbound
          · rw [hss] at hle
            exact hle
        · refine ⟨s2, ?_, hle, hpres⟩
          show (a.slots.set id.index _)[id2.index]? = _
          rw [List.getElem?_set_ne (Ne.symm hk)]
          exact hs2
  · subst ha1
    constructor
    · show a.free_count = countFree (a.slots ++ [_])
      rw [countFree_append_singleton]
      have hP : ({ generation := 0, entry := Entry.Present t } : Slot T).isFree = false := rfl
      rw [hP]
      simpa using hcount
    · intro id2 hid2
      rcases List.mem_cons.1 hid2 with rfl | hid2
      · refine ⟨{ generation := 0, entry := Entry.Present t }, ?_, Nat.le_of_eq hg, fun _ => rfl⟩
        show (a.slots ++ [_])[id2.index]? = _
        rw [getElem_append_singleton]
        simp [hi]
      · obtain ⟨s2, hs2, hle, hpres⟩ := hmint id2 hid2
        refine ⟨s2, ?_, hle, hpres⟩
        show (a.slots ++ [_])[id2.index]? = _
        rw [List.getElem?_append_left (getElem_of_mem_bound hs2)]
        exact hs2

theorem inv_remove {a : Arena T} {m : List Id} {id : Id}
    (hInv : a.Inv m) (hm : id ∈ m) : (a.remove_raw id).1.Inv m := by
  obtain ⟨hcount, hmint⟩ := hInv
  cases hex : a.exists_raw id with
  | false =>
    rw [remove_spec_neg hex]
    exact ⟨hcount, hmint⟩
  | true =>
    obtain ⟨s, hs, hg⟩ := (exists_raw_iff a id).1 hex
    obtain ⟨s2, hs2, hle, hpres⟩ := hmint id hm
    have hss : s2 = s := lookup_unique hs2 hs
    have hsP : s.isPresent = true := hss ▸ hpres (by rw [hss]; exact hg)
    have hsF : s.isFree = false := isFree_eq_false hsP
    rw [remove_spec_pos hs hg]
    constructor
    · show a.free_count + 1 = countFree (a.slots.set id.index _)
      have hset := countFree_set_toFree hs hsF
        ({ generation := s.generation + 1, entry := Entry.Free a.first_free } : Slot T) rfl
      omega
    · intro id2 hid2
      obtain ⟨s3, hs3, hle3, hpres3⟩ := hmint id2 hid2
      by_cases hk : id2.index = id.index
      · have hss3 : s3 = s := lookup_unique (hk ▸ hs3) hs
        refine ⟨{ generation := s.generation + 1, entry := Entry.Free a.first_free }, ?_, ?_, ?_⟩
        · show (a.slots.set id.index _)[id2.index]? = _
          rw [hk]
          exact List.getElem?_set_eq_of_lt _ (getElem_of_mem_bound hs)
        · have hle4 : id2.generation ≤ s.generation := by rw [← hss3]; exact hle3
          exact Nat.le_succ_of_le hle4
        · intro hg2
          exfalso
          have hle4 : id2.generation ≤ s.generation := by rw [← hss3]; exact hle3
          have hg3 : id2.generation = s.generation + 1 := hg2
          omega
      · refine ⟨s3, ?_, hle3, hpres3⟩
        show (a.slots.set id.index _)[id2.index]? = _
        rw [List.getElem?_set_ne (Ne.symm hk)]
        exact hs3

theorem inv_traceFrom {a0 : Arena T} {m0 : List Id} {a : Arena T} {m : List Id}
    (hInv : a0.Inv m0) (h : TraceFrom a0 m0 a m) : a.Inv m := by
  induction h with
  | refl => exact hInv
  | insert _ hstep ih => exact inv_insert ih hstep
  | remove _ hmem ih => exact inv_remove ih hmem

theorem reach_inv {a : Arena T} {m : List Id} (h : Reach a m) : a.Inv m :=
  inv_traceFrom inv_empty h

theorem mono_insert {a : Arena T} {t : T} {a1 : Arena T} {id : Id}
    (h : a.insert_raw t = Except.ok (a1, id)) {k : Nat} {s : Slot T}
    (hs : a.slots[k]? = some s) :
    ∃ s', a1.slots[k]? = some s' ∧ s'.generation = s.generation := by
  by_cases hk : k = id.index
  · subst hk
    rcases insert_spec h with ⟨s0, nf, hs0, he0, hg0, hff, hfc, ha1⟩ | ⟨hi, hg0, hfc, ha1⟩
    · have hss : s0 = s := lookup_unique hs0 hs
      refine ⟨{ generation := id.generation, entry := Entry.Present t }, insert_lookup h, ?_⟩
      show id.generation = s.generation
      rw [hg0, hss]
    · rw [hi] at hs
      rw [List.getElem?_eq_none (Nat.le_refl _)] at hs
      exact Option.noConfusion hs
  · exact ⟨s, by rw [insert_lookup_other h hk]; exact hs, rfl⟩

theorem mono_remove (a : Arena T) (id : Id) {k : Nat} {s : Slot T}
    (hs : a.slots[k]? = some s) :
    ∃ s', (a.remove_raw id).1.slots[k]? = some s' ∧ s.generation ≤ s'.generation := by
  cases hex : a.exists_raw id with
  | false =>
    rw [remove_spec_neg hex]
    exact ⟨s, hs, Nat.le_refl _⟩
  | true =>
    obtain ⟨s0, hs0, hg⟩ := (exists_raw_iff a id).1 hex
    rw [remove_spec_pos hs0 hg]
    by_cases hk : k = id.index
    · have hss : s0 = s := by
        rw [hk] at hs
        exact lookup_unique hs0 hs
      refine ⟨{ generation := s0.generation + 1, entry := Entry.Free a.first_free }, ?_, ?_⟩
      · show (a.slots.set id.index _)[k]? = _
        rw [hk]
        exact List.getElem?_set_eq_of_lt _ (getElem_of_mem_bound hs0)
      · show s.generation ≤ s0.generation + 1
        rw [hss]
        exact Nat.le_succ _
    · refine ⟨s, ?_, Nat.le_refl _⟩
      show (a.slots.set id.index _)[k]? = _
      rw [List.getElem?_set_ne (Ne.symm hk)]
      exact hs

theorem mono_traceFrom {a0 : Arena T} {m0 : List Id} {a : Arena T} {m : List Id}
    (h : TraceFrom a0 m0 a m) {k : Nat} {s : Slot T} (hs : a0.slots[k]? = some s) :
    ∃ s', a.slots[k]? = some s' ∧ s.generation ≤ s'.generation := by
  induction h with
  | refl => exact ⟨s, hs, Nat.le_refl _⟩
  | insert _ hstep ih =>
    obtain ⟨s1, hs1, hle1⟩ := ih
    obtain ⟨s2, hs2, heq⟩ := mono_insert hstep hs1
    exact ⟨s2, hs2, by omega⟩
  | remove _ hmem ih =>
    obtain ⟨s1, hs1, hle1⟩ := ih
    obtain ⟨s2, hs2, hle2⟩ := mono_remove _ _ hs1
    exact ⟨s2, hs2, Nat.le_trans hle1 hle2⟩

theorem minted_incl {a0 : Arena T} {m0 : List Id} {a : Arena T} {m : List Id}
    (h : TraceFrom a0 m0 a m) : ∀ id ∈ m0, id ∈ m := by
  induction h with
  | refl => exact fun id hid => hid
  | insert _ _ ih => exact fun id hid => List.mem_cons_of_mem _ (ih id hid)
  | remove _ _ ih => exact ih

theorem traceFrom_trans {a0 : Arena T} {m0 : List Id} {a1 : Arena T} {m1 : List Id}
    {a2 : Arena T} {m2 : List Id} (h1 : TraceFrom a0 m0 a1 m1)
    (h2 : TraceFrom a1 m1 a2 m2) : TraceFrom a0 m0 a2 m2 := by
  induction h2 with
  | refl => exact h1
  | insert _ hstep ih => exact TraceFrom.insert ih hstep
  | remove _ hmem ih => exact TraceFrom.remove ih hmem

/-- A handle that has stopped validating can never validate again
(absent `clear`): its generation is strictly below the slot's, and
generations only grow along insert/remove traces. -/
theorem stale_forever {a : Arena T} {m : List Id} {id : Id}
    (hInv : a.Inv m) (hm : id ∈ m) (hex : a.exists_raw id = false)
    {a' : Arena T} {m' : List Id} (h : TraceFrom a m a' m') :
    a'.exists_raw id = false ∧ a'.get_raw id = none := by
  obtain ⟨s, hs, hle, _⟩ := hInv.2 id hm
  have hne : id.generation ≠ s.generation := (exists_raw_false_iff a id).1 hex s hs
  have hlt : id.generation < s.generation := Nat.lt_of_le_of_ne hle hne
  obtain ⟨s', hs', hle'⟩ := mono_traceFrom h hs
  have hne' : id.generation ≠ s'.generation := by omega
  refine ⟨(exists_raw_false_iff a' id).2 fun s2 hs2 => ?_, get_raw_of_mismatch hs' hne'⟩
  have hss : s2 = s' := lookup_unique hs2 hs'
  rw [hss]
  exact hne'

/-- If slot `k` is free with generation `g`, every issued handle at `k`
has generation below `g`, and the trace issues no new handle at `k`,
then slot `k` stays untouched. -/
theorem slot_frozen {a : Arena T} {m : List Id} {a' : Arena T} {m' : List Id}
    (h : TraceFrom a m a' m') {k g nf : Nat}
    (hslot : a.slots[k]? = some { generation := g, entry := Entry.Free nf })
    (hbound : ∀ id ∈ m, id.index = k → id.generation < g)
    (hnew : ∀ id ∈ m', id ∉ m → id.index ≠ k) :
    a'.slots[k]? = some { generation := g, entry := Entry.Free nf } ∧
    ∀ id ∈ m', id.index = k → id.generation < g := by
  induction h with
  | refl => exact ⟨hslot, hbound⟩
  | @insert a2 m2 t a3 id3 htr hstep ih =>
    have hnew2 : ∀ id ∈ m2, id ∉ m → id.index ≠ k := fun id hid hnm =>
      hnew id (List.mem_cons_of_mem _ hid) hnm
    obtain ⟨hslot2, hbound2⟩ := ih hnew2
    have hk3 : id3.index ≠ k := by
      intro hk
      rcases insert_spec hstep with ⟨s0, nf0, hs0, he0, hg0, hff0, hfc0, ha0⟩ | ⟨hi, hg0, hfc0, ha0⟩
      · have hss : s0 = { generation := g, entry := Entry.Free nf } :=
          lookup_unique (hk ▸ hs0) hslot2
        have hg3 : id3.generation = g := by rw [hg0, hss]
        by_cases hmem : id3 ∈ m
        · have := hbound id3 hmem hk
          omega
        · exact hnew id3 (List.mem_cons_self _ _) hmem hk
      · have hkl : k = a2.slots.length := by omega
        rw [hkl] at hslot2
        rw [List.getElem?_eq_none (Nat.le_refl _)] at hslot2
        exact Option.noConfusion hslot2
    refine ⟨?_, ?_⟩
    · rw [insert_lookup_other hstep (Ne.symm hk3)]
      exact hslot2
    · intro id hid hidx
      rcases List.mem_cons.1 hid with rfl | hid
      · exact absurd hidx hk3
      · exact hbound2 id hid hidx
  | @remove a2 m2 id0 htr hmem ih =>
    obtain ⟨hslot2, hbound2⟩ := ih hnew
    cases hex : a2.exists_raw id0 with
    | false =>
      rw [remove_spec_neg hex]
      exact ⟨hslot2, hbound2⟩
    | true =>
      obtain ⟨s0, hs0, hg0⟩ := (exists_raw_iff a2 id0).1 hex
      have hk0 : id0.index ≠ k := by
        intro hk
        have hss : s0 = { generation := g, entry := Entry.Free nf } :=
          lookup_unique (hk ▸ hs0) hslot2
        have hgg : id0.generation = g := by rw [hg0, hss]
        have := hbound2 id0 hmem hk
        omega
      rw [remove_spec_pos hs0 hg0]
      refine ⟨?_, hbound2⟩
      show (a2.slots.set id0.index _)[k]? = _
      rw [List.getElem?_set_ne hk0]
      exact hslot2


/-!
## Present-handle bookkeeping
-/

theorem presentIdsAux_length (l : List (Slot T)) (i : Nat) :
    (presentIdsAux l i).length = countPresent l := by
  induction l generalizing i with
  | nil => rfl
  | cons s rest ih =>
    rw [countPresent_cons]
    unfold presentIdsAux
    cases he : s.entry with
    | Present t =>
      have hp : s.isPresent = true := by unfold Slot.isPresent; rw [he]
      simp [hp, ih]
    | Free nf =>
      have hp : s.isPresent = false := by unfold Slot.isPresent; rw [he]
      simp [hp, ih]

theorem presentIdsAux_mem (l : List (Slot T)) (i : Nat) (id : Id) :
    id ∈ presentIdsAux l i ↔
      ∃ j s, l[j]? = some s ∧ s.isPresent = true ∧
        id.index = i + j ∧ id.generation = s.generation := by
  induction l generalizing i with
  | nil =>
    simp [presentIdsAux]
  | cons s rest ih =>
    unfold presentIdsAux
    cases he : s.entry with
    | Present t =>
      constructor
      · intro hmem
        rcases List.mem_cons.1 hmem with rfl | hmem
        · exact ⟨0, s, by simp, by unfold Slot.isPresent; rw [he], by simp, rfl⟩
        · obtain ⟨j, s2, hj, hp, hidx, hgen⟩ := (ih (i + 1)).1 hmem
          exact ⟨j + 1, s2, by simpa using hj, hp, by omega, hgen⟩
      · rintro ⟨j, s2, hj, hp, hidx, hgen⟩
        cases j with
        | zero =>
          simp only [List.getElem?_cons_zero, Option.some.injEq] at hj
          subst hj
          have hid : id = { index := i, generation := s.generation } := by
            obtain ⟨ii, gg⟩ := id
            have h1 : ii = i + 0 := hidx
            have h2 : gg = s.generation := hgen
            rw [h1, h2]
            simp
          rw [hid]
          exact List.mem_cons_self _ _
        | succ j0 =>
          simp only [List.getElem?_cons_succ] at hj
          exact List.mem_cons_of_mem _
            ((ih (i + 1)).2 ⟨j0, s2, hj, hp, by omega, hgen⟩)
    | Free nf =>
      constructor
      · intro hmem
        obtain ⟨j, s2, hj, hp, hidx, hgen⟩ := (ih (i + 1)).1 hmem
        exact ⟨j + 1, s2, by simpa using hj, hp, by omega, hgen⟩
      · rintro ⟨j, s2, hj, hp, hidx, hgen⟩
        cases j with
        | zero =>
          simp only [List.getElem?_cons_zero, Option.some.injEq] at hj
          subst hj
          have hP0 : s.isPresent = false := by unfold Slot.isPresent; rw [he]
          rw [hP0] at hp
          exact Bool.noConfusion hp
        | succ j0 =>
          simp only [List.getElem?_cons_succ] at hj
          exact (ih (i + 1)).2 ⟨j0, s2, hj, hp, by omega, hgen⟩

theorem presentIdsAux_index_lb (l : List (Slot T)) (i : Nat) :
    ∀ id ∈ presentIdsAux l i, i ≤ id.index := by
  intro id hid
  obtain ⟨j, s, hj, hp, hidx, hgen⟩ := (presentIdsAux_mem l i id).1 hid
  omega

theorem presentIdsAux_nodup (l : List (Slot T)) (i : Nat) :
    (presentIdsAux l i).Nodup := by
  induction l generalizing i with
  | nil => exact List.nodup_nil
  | cons s rest ih =>
    unfold presentIdsAux
    cases he : s.entry with
    | Present t =>
      refine List.nodup_cons.2 ⟨?_, ih (i + 1)⟩
      intro hmem
      have hlb := presentIdsAux_index_lb rest (i + 1) _ hmem
      have : i + 1 ≤ i := hlb
      omega
    | Free nf => exact ih (i + 1)

theorem get_raw_isSome_iff (a : Arena T) (id : Id) :
    (a.get_raw id).isSome = true ↔ id ∈ presentIds a := by
  unfold presentIds
  rw [presentIdsAux_mem]
  constructor
  · intro h
    unfold Arena.get_raw at h
    cases hs : a.slots[id.index]? with
    | none =>
      simp only [hs] at h
      exact absurd h (by simp)
    | some s =>
      by_cases hg : id.generation = s.generation
      · cases he : s.entry with
        | Present t =>
          exact ⟨id.index, s, hs, by unfold Slot.isPresent; rw [he], by omega, hg⟩
        | Free nf =>
          have hnn : ¬ id.generation ≠ s.generation := fun hh => hh hg
          simp only [hs, if_neg hnn, he] at h
          exact absurd h (by simp)
      · simp only [hs, if_pos hg] at h
        exact absurd h (by simp)
  · rintro ⟨j, s, hj, hp, hidx, hgen⟩
    rw [Nat.zero_add] at hidx
    rw [← hidx] at hj
    unfold Arena.get_raw
    cases he : s.entry with
    | Present t =>
      have hnn : ¬ id.generation ≠ s.generation := fun hh => hh hgen
      simp only [hj, if_neg hnn, he]
      rfl
    | Free nf =>
      have hP0 : s.isPresent = false := by unfold Slot.isPresent; rw [he]
      rw [hP0] at hp
      exact Bool.noConfusion hp


/-!
## Iterator lemmas
-/

theorem presentValues_length (l : List (Slot T)) :
    (presentValues l).length = countPresent l := by
  induction l with
  | nil => rfl
  | cons s rest ih =>
    rw [countPresent_cons]
    unfold presentValues at ih ⊢
    cases he : s.entry with
    | Present t =>
      have hp : s.isPresent = true := by unfold Slot.isPresent; rw [he]
      simp [List.filterMap_cons, he, hp, ih]
    | Free nf =>
      have hp : s.isPresent = false := by unfold Slot.isPresent; rw [he]
      simp [List.filterMap_cons, he, hp, ih]

theorem presentValues_reverse (l : List (Slot T)) :
    presentValues l.reverse = (presentValues l).reverse := by
  unfold presentValues
  exact List.filterMap_reverse _ l

theorem countPresent_reverse (l : List (Slot T)) :
    countPresent l.reverse = countPresent l := by
  rw [← presentValues_length, ← presentValues_length, presentValues_reverse]
  simp

theorem firstPresent_none (l : List (Slot T)) :
    firstPresent l = none ↔ countPresent l = 0 := by
  induction l with
  | nil => simp [firstPresent, countPresent]
  | cons s rest ih =>
    rw [countPresent_cons]
    unfold firstPresent
    cases he : s.entry with
    | Present t =>
      have hp : s.isPresent = true := by unfold Slot.isPresent; rw [he]
      simp [hp]
    | Free nf =>
      have hp : s.isPresent = false := by unfold Slot.isPresent; rw [he]
      simp [hp, ih]

theorem firstPresent_some {l : List (Slot T)} {t : T} {rest : List (Slot T)}
    (h : firstPresent l = some (t, rest)) :
    countPresent l = countPresent rest + 1 ∧
    presentValues l = t :: presentValues rest ∧
    rest.length < l.length := by
  induction l generalizing t rest with
  | nil => exact absurd h (by simp [firstPresent])
  | cons s tail ih =>
    unfold firstPresent at h
    cases he : s.entry with
    | Present t0 =>
      simp only [he, Option.some.injEq, Prod.mk.injEq] at h
      obtain ⟨ht, hrest⟩ := h
      subst ht hrest
      have hp : s.isPresent = true := by unfold Slot.isPresent; rw [he]
      refine ⟨by rw [countPresent_cons, hp]; simp, ?_, by simp⟩
      unfold presentValues
      simp [List.filterMap_cons, he]
    | Free nf =>
      simp only [he] at h
      obtain ⟨hc, hpv, hlen⟩ := ih h
      have hp : s.isPresent = false := by unfold Slot.isPresent; rw [he]
      refine ⟨?_, ?_, ?_⟩
      · rw [countPresent_cons, hp]
        simpa using hc
      · unfold presentValues at hpv ⊢
        simp [List.filterMap_cons, he, hpv]
      · simp only [List.length_cons]
        omega

theorem lastPresent_none (l : List (Slot T)) :
    lastPresent l = none ↔ countPresent l = 0 := by
  unfold lastPresent
  cases hf : firstPresent l.reverse with
  | none =>
    have hc := (firstPresent_none l.reverse).1 hf
    rw [countPresent_reverse] at hc
    simp [hc]
  | some p =>
    obtain ⟨t, r⟩ := p
    obtain ⟨hc1, _, _⟩ := firstPresent_some hf
    rw [countPresent_reverse] at hc1
    simp only []
    constructor
    · intro hcon
      exact Option.noConfusion hcon
    · intro hc
      omega

theorem lastPresent_some {l : List (Slot T)} {t : T} {pre : List (Slot T)}
    (h : lastPresent l = some (t, pre)) :
    countPresent l = countPresent pre + 1 ∧
    presentValues l = presentValues pre ++ [t] ∧
    pre.length < l.length := by
  unfold lastPresent at h
  cases hf : firstPresent l.reverse with
  | none =>
    rw [hf] at h
    exact Option.noConfusion h
  | some p =>
    obtain ⟨t0, r⟩ := p
    rw [hf] at h
    simp only [Option.some.injEq, Prod.mk.injEq] at h
    obtain ⟨ht, hpre⟩ := h
    obtain ⟨hc, hpv, hlen⟩ := firstPresent_some hf
    subst hpre
    rw [countPresent_reverse] at hc
    refine ⟨?_, ?_, ?_⟩
    · rw [hc, countPresent_reverse]
    · have hrev := presentValues_reverse l
      rw [hrev] at hpv
      have hl : presentValues l = (t0 :: presentValues r).reverse := by
        rw [← hpv]
        simp
      rw [hl, ← ht, presentValues_reverse]
      simp
    · simp only [List.length_reverse] at hlen ⊢
      omega

theorem next_none_iff (it : Iter T) :
    it.next = none ↔ countPresent it.slots = 0 := by
  unfold Iter.next
  cases hf : firstPresent it.slots with
  | none =>
    have hc := (firstPresent_none it.slots).1 hf
    simp [hc]
  | some p =>
    obtain ⟨t, rest⟩ := p
    obtain ⟨hc, _, _⟩ := firstPresent_some hf
    simp only []
    constructor
    · intro hcon
      exact Option.noConfusion hcon
    · intro hc0
      omega

theorem nextBack_none_iff (it : Iter T) :
    it.nextBack = none ↔ countPresent it.slots = 0 := by
  unfold Iter.nextBack
  cases hf : lastPresent it.slots with
  | none =>
    have hc := (lastPresent_none it.slots).1 hf
    simp [hc]
  | some p =>
    obtain ⟨t, rest⟩ := p
    obtain ⟨hc, _, _⟩ := lastPresent_some hf
    simp only []
    constructor
    · intro hcon
      exact Option.noConfusion hcon
    · intro hc0
      omega

theorem next_some {it : Iter T} {t : T} {it2 : Iter T}
    (h : it.next = some (t, it2)) :
    it2.slots.length < it.slots.length ∧
    countPresent it2.slots + 1 = countPresent it.slots ∧
    it2.length = it.length ∧ it2.returned = it.returned + 1 := by
  unfold Iter.next at h
  cases hf : firstPresent it.slots with
  | none =>
    rw [hf] at h
    exact Option.noConfusion h
  | some p =>
    obtain ⟨t0, rest⟩ := p
    rw [hf] at h
    simp only [Option.some.injEq, Prod.mk.injEq] at h
    obtain ⟨ht, hit⟩ := h
    obtain ⟨hc, hpv, hlen⟩ := firstPresent_some hf
    rw [← hit]
    exact ⟨hlen, hc.symm, rfl, rfl⟩

theorem nextBack_some {it : Iter T} {t : T} {it2 : Iter T}
    (h : it.nextBack = some (t, it2)) :
    it2.slots.length < it.slots.length ∧
    countPresent it2.slots + 1 = countPresent it.slots ∧
    it2.length = it.length ∧ it2.returned = it.returned + 1 := by
  unfold Iter.nextBack at h
  cases hf : lastPresent it.slots with
  | none =>
    rw [hf] at h
    exact Option.noConfusion h
  | some p =>
    obtain ⟨t0, pre⟩ := p
    rw [hf] at h
    simp only [Option.some.injEq, Prod.mk.injEq] at h
    obtain ⟨ht, hit⟩ := h
    obtain ⟨hc, hpv, hlen⟩ := lastPresent_some hf
    rw [← hit]
    exact ⟨hlen, hc.symm, rfl, rfl⟩

theorem goodIter_next {it : Iter T} (hg : GoodIter it) {t : T} {it2 : Iter T}
    (h : it.next = some (t, it2)) : GoodIter it2 := by
  obtain ⟨hle, heq⟩ := hg
  obtain ⟨_, hc, hlen, hret⟩ := next_some h
  constructor
  · omega
  · omega

theorem goodIter_nextBack {it : Iter T} (hg : GoodIter it) {t : T} {it2 : Iter T}
    (h : it.nextBack = some (t, it2)) : GoodIter it2 := by
  obtain ⟨hle, heq⟩ := hg
  obtain ⟨_, hc, hlen, hret⟩ := nextBack_some h
  constructor
  · omega
  · omega

theorem runCalls_spec {it : Iter T} (hg : GoodIter it) (ds : List Bool) :
    GoodIter (runCalls it ds).2 ∧
    (runCalls it ds).1.length + countPresent ((runCalls it ds).2).slots = countPresent it.slots ∧
    (countPresent it.slots ≤ ds.length → countPresent ((runCalls it ds).2).slots = 0) := by
  induction ds generalizing it with
  | nil =>
    refine ⟨hg, by simp [runCalls], ?_⟩
    intro h
    simp only [runCalls]
    simp only [List.length_nil] at h
    omega
  | cons d rest ih =>
    cases d with
    | true =>
      cases hn : it.next with
      | none =>
        have hstep : runCalls it (true :: rest) = runCalls it rest := by
          simp only [runCalls]
          simp [hn]
        rw [hstep]
        have hc0 : countPresent it.slots = 0 := (next_none_iff it).1 hn
        obtain ⟨g1, g2, g3⟩ := ih hg
        exact ⟨g1, g2, fun _ => g3 (by omega)⟩
      | some p =>
        obtain ⟨t, it2⟩ := p
        have hstep : runCalls it (true :: rest) =
            (t :: (runCalls it2 rest).1, (runCalls it2 rest).2) := by
          simp only [runCalls]
          simp [hn]
        rw [hstep]
        have hg2 := goodIter_next hg hn
        obtain ⟨_, hc, _, _⟩ := next_some hn
        obtain ⟨g1, g2, g3⟩ := ih hg2
        refine ⟨g1, ?_, fun hlen => ?_⟩
        · simp only [List.length_cons]
          omega
        · simp only [List.length_cons] at hlen
          exact g3 (by omega)
    | false =>
      cases hn : it.nextBack with
      | none =>
        have hstep : runCalls it (false :: rest) = runCalls it rest := by
          simp only [runCalls]
          simp [hn]
        rw [hstep]
        have hc0 : countPresent it.slots = 0 := (nextBack_none_iff it).1 hn
        obtain ⟨g1, g2, g3⟩ := ih hg
        exact ⟨g1, g2, fun _ => g3 (by omega)⟩
      | some p =>
        obtain ⟨t, it2⟩ := p
        have hstep : runCalls it (false :: rest) =
            (t :: (runCalls it2 rest).1, (runCalls it2 rest).2) := by
          simp only [runCalls]
          simp [hn]
        rw [hstep]
        have hg2 := goodIter_nextBack hg hn
        obtain ⟨_, hc, _, _⟩ := nextBack_some hn
        obtain ⟨g1, g2, g3⟩ := ih hg2
        refine ⟨g1, ?_, fun hlen => ?_⟩
        · simp only [List.length_cons]
          omega
        · simp only [List.length_cons] at hlen
          exact g3 (by omega)

theorem goodIter_init {a : Arena T} (h : a.free_count = countFree a.slots) :
    GoodIter a.iter := by
  constructor
  · exact Nat.zero_le _
  · show a.len - 0 = countPresent a.slots
    have hpf := countPresent_add_countFree a.slots
    unfold Arena.len
    omega

theorem run_forward (n : Nat) :
    ∀ (l : List (Slot T)) (L R : Nat), countPresent l ≤ n →
      (runCalls { slots := l, length := L, returned := R } (List.replicate n true)).1 =
        presentValues l := by
  induction n with
  | zero =>
    intro l L R h
    have h0 : countPresent l = 0 := by omega
    have hlen : (presentValues l).length = 0 := by rw [presentValues_length]; exact h0
    rw [List.length_eq_zero] at hlen
    simp [runCalls, hlen]
  | succ n ih =>
    intro l L R h
    rw [List.replicate_succ]
    cases hf : firstPresent l with
    | none =>
      have hc0 : countPresent l = 0 := (firstPresent_none l).1 hf
      have hn : ({ slots := l, length := L, returned := R } : Iter T).next = none := by
        unfold Iter.next
        simp [hf]
      have hstep : runCalls { slots := l, length := L, returned := R } (true :: List.replicate n true) =
          runCalls { slots := l, length := L, returned := R } (List.replicate n true) := by
        simp only [runCalls]
        simp [hn]
      rw [hstep]
      exact ih l L R (by omega)
    | some p =>
      obtain ⟨t, rest⟩ := p
      obtain ⟨hc, hpv, hlen⟩ := firstPresent_some hf
      have hn : ({ slots := l, length := L, returned := R } : Iter T).next =
          some (t, { slots := rest, length := L, returned := R + 1 }) := by
        unfold Iter.next
        simp [hf]
      have hstep : runCalls { slots := l, length := L, returned := R } (true :: List.replicate n true) =
          (t :: (runCalls { slots := rest, length := L, returned := R + 1 } (List.replicate n true)).1,
           (runCalls { slots := rest, length := L, returned := R + 1 } (List.replicate n true)).2) := by
        simp only [runCalls]
        simp [hn]
      rw [hstep, hpv]
      simp only [List.cons.injEq, true_and]
      exact ih rest L (R + 1) (by omega)

theorem run_backward (n : Nat) :
    ∀ (l : List (Slot T)) (L R : Nat), countPresent l ≤ n →
      (runCalls { slots := l, length := L, returned := R } (List.replicate n false)).1 =
        (presentValues l).reverse := by
  induction n with
  | zero =>
    intro l L R h
    have h0 : countPresent l = 0 := by omega
    have hlen : (presentValues l).length = 0 := by rw [presentValues_length]; exact h0
    rw [List.length_eq_zero] at hlen
    simp [runCalls, hlen]
  | succ n ih =>
    intro l L R h
    rw [List.replicate_succ]
    cases hf : lastPresent l with
    | none =>
      have hc0 : countPresent l = 0 := (lastPresent_none l).1 hf
      have hn : ({ slots := l, length := L, returned := R } : Iter T).nextBack = none := by
        unfold Iter.nextBack
        simp [hf]
      have hstep : runCalls { slots := l, length := L, returned := R } (false :: List.replicate n false) =
          runCalls { slots := l, length := L, returned := R } (List.replicate n false) := by
        simp only [runCalls]
        simp [hn]
      rw [hstep]
      exact ih l L R (by omega)
    | some p =>
      obtain ⟨t, pre⟩ := p
      obtain ⟨hc, hpv, hlen⟩ := lastPresent_some hf
      have hn : ({ slots := l, length := L, returned := R } : Iter T).nextBack =
          some (t, { slots := pre, length := L, returned := R + 1 }) := by
        unfold Iter.nextBack
        simp [hf]
      have hstep : runCalls { slots := l, length := L, returned := R } (false :: List.replicate n false) =
          (t :: (runCalls { slots := pre, length := L, returned := R + 1 } (List.replicate n false)).1,
           (runCalls { slots := pre, length := L, returned := R + 1 } (List.replicate n false)).2) := by
        simp only [runCalls]
        simp [hn]
      rw [hstep, hpv]
      rw [List.reverse_append]
      simp only [List.reverse_cons, List.reverse_nil, List.nil_append, List.singleton_append, List.cons.injEq, true_and]
      exact ih pre L (R + 1) (by omega)


/-!
## Claim theorems
-/

/-- C1: the claim says `reserve(additional)` grows capacity by at least
`additional - free_count` without panicking when `additional` exceeds
the free count, and is a no-op otherwise.  The code computes
`free - additional` (operands swapped), so every growing call
underflows `usize` and panics; only the no-op half behaves as claimed.
Evaluated here at the failing input `Arena::new(); reserve(1)` and at
the no-op edge `free_count = 1, reserve(1)`. -/
theorem reserve_underflow :
    (arenaEmpty Nat).reserve 1 = Except.error "attempt to subtract with overflow" ∧
    (Arena.mk [{ generation := 1, entry := Entry.Free 0 }] 0 1 : Arena Nat).reserve 1 =
      Except.ok 0 ∧
    (Arena.mk [{ generation := 1, entry := Entry.Free 0 }] 0 1 : Arena Nat).reserve 2 =
      Except.error "attempt to subtract with overflow" :=
  ⟨rfl, rfl, rfl⟩

/-- C2 counterexample: the claim includes `clear` among the operations
under which a slot's generation never decreases and is never reset.
The public sequence `insert 7; remove (0,0)` leaves slot 0 at
generation 1, and continuing with `clear; insert 8` leaves slot 0 at
generation 0 — a decrease, with the removed handle having been issued
by the first insert (see the returned handle lists). -/
theorem generation_reset_counterexample :
    runPubIds (arenaEmpty Nat) [POp.insert 7, POp.remove { index := 0, generation := 0 }] =
      Except.ok (Arena.mk [{ generation := 1, entry := Entry.Free 0 }] 0 1,
        [{ index := 0, generation := 0 }]) ∧
    runPubIds (arenaEmpty Nat) [POp.insert 7, POp.remove { index := 0, generation := 0 },
        POp.clear, POp.insert 8] =
      Except.ok (Arena.mk [{ generation := 0, entry := Entry.Present 8 }] 0 0,
        [{ index := 0, generation := 0 }, { index := 0, generation := 0 }]) ∧
    ((Arena.mk [{ generation := 1, entry := Entry.Free 0 }] 0 1 : Arena Nat).slots[0]?).map
      (fun s => s.generation) = some 1 ∧
    ((Arena.mk [{ generation := 0, entry := Entry.Present 8 }] 0 0 : Arena Nat).slots[0]?).map
      (fun s => s.generation) = some 0 :=
  ⟨rfl, rfl, rfl, rfl⟩

/-- C2 (amended): along any sequence of public `insert` and `remove`
calls with previously-issued handles — every public operation except
`clear`, which discards all slots so that later insertions restart at
generation 0 — slot generations never decrease; an insert leaves every
existing slot's generation unchanged; a remove whose handle fails
validation is a complete no-op, while a remove whose handle validates
returns a value and bumps exactly its own slot's generation by 1; and
an issued handle that has stopped validating never validates or
resolves again. -/
theorem generation_monotone {a : Arena T} {m : List Id} (hR : Reach a m)
    {a' : Arena T} {m' : List Id} (hT : TraceFrom a m a' m') :
    (∀ (k : Nat) (s : Slot T), a.slots[k]? = some s →
      ∃ s', a'.slots[k]? = some s' ∧ s.generation ≤ s'.generation) ∧
    (∀ (t : T) (a2 : Arena T) (id : Id), a'.insert_raw t = Except.ok (a2, id) →
      ∀ (k : Nat) (s : Slot T), a'.slots[k]? = some s →
        ∃ s', a2.slots[k]? = some s' ∧ s'.generation = s.generation) ∧
    (∀ id, a'.exists_raw id = false → a'.remove_raw id = (a', none)) ∧
    (∀ id ∈ m', a'.exists_raw id = true →
      ∃ s, a'.slots[id.index]? = some s ∧ s.isPresent = true ∧
        ((a'.remove_raw id).2).isSome = true ∧
        (a'.remove_raw id).1.slots[id.index]? =
          some { generation := s.generation + 1, entry := Entry.Free a'.first_free } ∧
        ∀ k, k ≠ id.index → (a'.remove_raw id).1.slots[k]? = a'.slots[k]?) ∧
    (∀ id ∈ m, a.exists_raw id = false → a'.exists_raw id = false ∧ a'.get_raw id = none) := by
  have hInv := reach_inv hR
  have hInv2 := inv_traceFrom hInv hT
  refine ⟨?_, ?_, ?_, ?_, ?_⟩
  · intro k s hs
    exact mono_traceFrom hT hs
  · intro t a2 id hins k s hs
    exact mono_insert hins hs
  · intro id hex
    exact remove_spec_neg hex
  · intro id hmem hex
    obtain ⟨s0, hs0, hg0⟩ := (exists_raw_iff a' id).1 hex
    obtain ⟨s1, hs1, hle1, hpres1⟩ := hInv2.2 id hmem
    have hss : s1 = s0 := lookup_unique hs1 hs0
    have hP : s0.isPresent = true := by
      rw [← hss]
      exact hpres1 (by rw [hss]; exact hg0)
    refine ⟨s0, hs0, hP, ?_, ?_, ?_⟩
    · rw [remove_spec_pos hs0 hg0]
      cases he : s0.entry with
      | Present t =>
        simp only [he]
        rfl
      | Free nf =>
        have hcon : s0.isPresent = false := by unfold Slot.isPresent; rw [he]
        rw [hcon] at hP
        exact Bool.noConfusion hP
    · rw [remove_spec_pos hs0 hg0]
      show (a'.slots.set id.index _)[id.index]? = _
      exact List.getElem?_set_eq_of_lt _ (getElem_of_mem_bound hs0)
    · intro k hk
      rw [remove_spec_pos hs0 hg0]
      show (a'.slots.set id.index _)[k]? = _
      rw [List.getElem?_set_ne (Ne.symm hk)]
  · intro id hmem hex
    exact stale_forever hInv hmem hex hT

/-- C2 witness: `insert 5` issues handle `(0, 0)`, which validates; a
remove through it returns a value. -/
theorem generation_monotone_witness :
    ((Arena.mk [{ generation := 0, entry := Entry.Present 5 }] 0 0 : Arena Nat).remove_raw
        { index := 0, generation := 0 }).2.isSome = true ∧
    (Arena.mk [{ generation := 0, entry := Entry.Present 5 }] 0 0 : Arena Nat).exists_raw
        { index := 0, generation := 0 } = true := by
  have hR : Reach (Arena.mk [{ generation := 0, entry := Entry.Present 5 }] 0 0 : Arena Nat)
      [{ index := 0, generation := 0 }] :=
    TraceFrom.insert TraceFrom.refl rfl
  have h := generation_monotone hR TraceFrom.refl
  obtain ⟨s, _, _, hsome, _, _⟩ :=
    h.2.2.2.1 { index := 0, generation := 0 } (by decide) (by decide)
  exact ⟨hsome, by decide⟩

/-- C3 counterexample: handle `(0, 1)` is issued by the third call and
removed by the fourth; after `clear`, the insertion that reuses slot 0
issues `(0, 0)` — generation 0, not `(0, 1)`'s generation plus one —
and after one more remove the stale handle `(0, 1)` validates again.
No call after the fourth ever re-issues `(0, 1)` (see the handle
lists). -/
theorem reuse_counterexample :
    runPubIds (arenaEmpty Nat) [POp.insert 1, POp.remove { index := 0, generation := 0 },
        POp.insert 3, POp.remove { index := 0, generation := 1 }] =
      Except.ok (Arena.mk [{ generation := 2, entry := Entry.Free 0 }] 0 1,
        [{ index := 0, generation := 0 }, { index := 0, generation := 1 }]) ∧
    runPubIds (arenaEmpty Nat) [POp.insert 1, POp.remove { index := 0, generation := 0 },
        POp.insert 3, POp.remove { index := 0, generation := 1 }, POp.clear, POp.insert 4] =
      Except.ok (Arena.mk [{ generation := 0, entry := Entry.Present 4 }] 0 0,
        [{ index := 0, generation := 0 }, { index := 0, generation := 1 },
         { index := 0, generation := 0 }]) ∧
    runPubIds (arenaEmpty Nat) [POp.insert 1, POp.remove { index := 0, generation := 0 },
        POp.insert 3, POp.remove { index := 0, generation := 1 }, POp.clear, POp.insert 4,
        POp.remove { index := 0, generation := 0 }] =
      Except.ok (Arena.mk [{ generation := 1, entry := Entry.Free 0 }] 0 1,
        [{ index := 0, generation := 0 }, { index := 0, generation := 1 },
         { index := 0, generation := 0 }]) ∧
    (Arena.mk [{ generation := 1, entry := Entry.Free 0 }] 0 1 : Arena Nat).exists_raw
      { index := 0, generation := 1 } = true :=
  ⟨rfl, rfl, rfl, rfl⟩

/-- C3 (amended): in traces of public `insert`/`remove` calls with
issued handles and no `clear`: after `id = insert(v)` and the removal
`remove(id)` (which returns `v`), `id` never validates or resolves in
any later state; and if the first later insertion to return `id`'s
index does so before any other insertion has been issued at that index,
its handle carries generation exactly `id.generation + 1`, while `id`
still fails to validate or resolve afterwards. -/
theorem invalidation_and_reuse {a : Arena T} {m : List Id} (hR : Reach a m)
    {v : T} {a1 : Arena T} {id : Id} (hins : a.insert_raw v = Except.ok (a1, id)) :
    (a1.remove_raw id).2 = some v ∧
    ∀ a' m', TraceFrom (a1.remove_raw id).1 (id :: m) a' m' →
      (a'.exists_raw id = false ∧ a'.get_raw id = none) ∧
      ((∀ id2 ∈ m', id2 ∉ id :: m → id2.index ≠ id.index) →
        ∀ t a2 id2, a'.insert_raw t = Except.ok (a2, id2) → id2.index = id.index →
          id2.generation = id.generation + 1 ∧
          a2.exists_raw id = false ∧ a2.get_raw id = none) := by
  have hInv := reach_inv hR
  have hInv1 := inv_insert hInv hins
  have hlook := insert_lookup hins
  have hbound1 : id.index < a1.slots.length := getElem_of_mem_bound hlook
  have hrm := remove_spec_pos hlook rfl
  have hlook2 : (a1.remove_raw id).1.slots[id.index]? =
      some { generation := id.generation + 1, entry := Entry.Free a1.first_free } := by
    rw [hrm]
    show (a1.slots.set id.index _)[id.index]? = _
    exact List.getElem?_set_eq_of_lt _ hbound1
  have hInv2 : (a1.remove_raw id).1.Inv (id :: m) :=
    inv_remove hInv1 (List.mem_cons_self _ _)
  have hex2 : (a1.remove_raw id).1.exists_raw id = false := by
    apply (exists_raw_false_iff _ _).2
    intro s hs hcon
    have hss : s = { generation := id.generation + 1, entry := Entry.Free a1.first_free } :=
      lookup_unique hs hlook2
    have hcc : id.generation = id.generation + 1 := by rw [hss] at hcon; exact hcon
    omega
  refine ⟨by rw [hrm], ?_⟩
  intro a' m' hT
  refine ⟨stale_forever hInv2 (List.mem_cons_self _ _) hex2 hT, ?_⟩
  intro hnomint t a2 id2 hins2 hidx
  have hbound0 : ∀ id3 ∈ id :: m, id3.index = id.index →
      id3.generation < id.generation + 1 := by
    intro id3 hid3 hidx3
    rcases List.mem_cons.1 hid3 with rfl | hid3
    · omega
    · obtain ⟨s3, hs3, hle3, hpres3⟩ := hInv2.2 id3 (List.mem_cons_of_mem _ hid3)
      rw [hidx3] at hs3
      have hss3 : s3 = { generation := id.generation + 1, entry := Entry.Free a1.first_free } :=
        lookup_unique hs3 hlook2
      have hle4 : id3.generation ≤ id.generation + 1 := by rw [hss3] at hle3; exact hle3
      by_cases heq : id3.generation = id.generation + 1
      · have hPres := hpres3 (by rw [hss3]; exact heq)
        rw [hss3] at hPres
        exact Bool.noConfusion hPres
      · omega
  have hfrozen := slot_frozen hT hlook2 hbound0 hnomint
  rcases insert_spec hins2 with ⟨s0, nf0, hs0, he0, hg0, hff0, hfc0, ha2⟩ | ⟨hi, hg0, hfc0, ha2⟩
  · rw [hidx] at hs0
    have hss0 : s0 = { generation := id.generation + 1, entry := Entry.Free a1.first_free } :=
      lookup_unique hs0 hfrozen.1
    have hgen2 : id2.generation = id.generation + 1 := by rw [hg0, hss0]
    have hT2 : TraceFrom (a1.remove_raw id).1 (id :: m) a2 (id2 :: m') :=
      TraceFrom.insert hT hins2
    have hst := stale_forever hInv2 (List.mem_cons_self _ _) hex2 hT2
    exact ⟨hgen2, hst.1, hst.2⟩
  · exfalso
    rw [hidx] at hi
    have hf1 := hfrozen.1
    rw [hi] at hf1
    rw [List.getElem?_eq_none (Nat.le_refl _)] at hf1
    exact Option.noConfusion hf1

/-- C3 witness: `insert 5` on the empty arena issues `(0, 0)`; its
removal returns `5`; reusing slot 0 issues `(0, 1)` — generation
exactly one greater — and `(0, 0)` no longer validates. -/
theorem invalidation_and_reuse_witness :
    ((Arena.mk [{ generation := 0, entry := Entry.Present 5 }] 0 0 : Arena Nat).remove_raw
        { index := 0, generation := 0 }).2 = some 5 ∧
    (Arena.mk [{ generation := 1, entry := Entry.Free 0 }] 0 1 : Arena Nat).insert_raw 7 =
      Except.ok (Arena.mk [{ generation := 1, entry := Entry.Present 7 }] 0 0,
        { index := 0, generation := 1 }) ∧
    ({ index := 0, generation := 1 } : Id).generation =
      ({ index := 0, generation := 0 } : Id).generation + 1 ∧
    (Arena.mk [{ generation := 1, entry := Entry.Present 7 }] 0 0 : Arena Nat).exists_raw
      { index := 0, generation := 0 } = false := by
  have h := invalidation_and_reuse TraceFrom.refl
      (show (arenaEmpty Nat).insert_raw 5 =
        Except.ok (Arena.mk [{ generation := 0, entry := Entry.Present 5 }] 0 0,
          { index := 0, generation := 0 }) from rfl)
  have h3 := (h.2 _ _ TraceFrom.refl).2 (by decide) 7
      (Arena.mk [{ generation := 1, entry := Entry.Present 7 }] 0 0)
      { index := 0, generation := 1 } rfl rfl
  exact ⟨h.1, rfl, h3.1, h3.2.1⟩


/-- C4 counterexample: the public sequence `insert 5; remove (0,0)` —
inserts and removes only, the remove using the issued handle — reaches
a state with `len() = 0` in which the handle `(0, 1)` nevertheless
satisfies `contains` (the slot is free but its generation matches), so
`len()` is not the number of handles accepted by `contains`. -/
theorem len_contains_counterexample :
    runPubIds (arenaEmpty Nat) [POp.insert 5, POp.remove { index := 0, generation := 0 }] =
      Except.ok (Arena.mk [{ generation := 1, entry := Entry.Free 0 }] 0 1,
        [{ index := 0, generation := 0 }]) ∧
    (Arena.mk [{ generation := 1, entry := Entry.Free 0 }] 0 1 : Arena Nat).len = 0 ∧
    (Arena.mk [{ generation := 1, entry := Entry.Free 0 }] 0 1 : Arena Nat).exists_raw
      { index := 0, generation := 1 } = true :=
  ⟨rfl, rfl, rfl⟩

/-- C4 (amended): in every state reachable from the empty arena by
public inserts and removes (removes using previously-issued handles),
`len()` equals the number of handles for which `get` returns a value —
the `presentIds`, which are pairwise distinct — and equals the total
slot count minus `free_count` (no scan); `free_count` itself equals
the number of `Free` slots.  (`contains` additionally accepts the
current-generation handle of every free slot, which is what the
counterexample exhibits.) -/
theorem len_counts {a : Arena T} {m : List Id} (h : Reach a m) :
    a.len = a.slots.length - a.free_count ∧
    a.free_count = countFree a.slots ∧
    a.len = countPresent a.slots ∧
    a.len = (presentIds a).length ∧
    (presentIds a).Nodup ∧
    ∀ id : Id, (a.get_raw id).isSome = true ↔ id ∈ presentIds a := by
  have hInv := reach_inv h
  have hcount := hInv.1
  have hpf := countPresent_add_countFree a.slots
  refine ⟨rfl, hcount, ?_, ?_, presentIdsAux_nodup a.slots 0,
    fun id => get_raw_isSome_iff a id⟩
  · unfold Arena.len
    omega
  · unfold presentIds
    rw [presentIdsAux_length]
    unfold Arena.len
    omega

/-- C4 witness: the arena obtained by `insert 5; insert 6; remove (0,0)`
has `len() = 1 = ` number of present slots, and `get` resolves exactly
the handles in `presentIds`. -/
theorem len_counts_witness :
    (Arena.mk [{ generation := 1, entry := Entry.Free 0 },
        { generation := 0, entry := Entry.Present 6 }] 0 1 : Arena Nat).len =
      countPresent ([{ generation := 1, entry := Entry.Free 0 },
        { generation := 0, entry := Entry.Present 6 }] : List (Slot Nat)) ∧
    (((Arena.mk [{ generation := 1, entry := Entry.Free 0 },
        { generation := 0, entry := Entry.Present 6 }] 0 1 : Arena Nat).get_raw
        { index := 1, generation := 0 }).isSome = true ↔
      { index := 1, generation := 0 } ∈ presentIds
        (Arena.mk [{ generation := 1, entry := Entry.Free 0 },
          { generation := 0, entry := Entry.Present 6 }] 0 1 : Arena Nat)) := by
  have s1 : (arenaEmpty Nat).insert_raw 5 =
      Except.ok (Arena.mk [{ generation := 0, entry := Entry.Present 5 }] 0 0,
        { index := 0, generation := 0 }) := rfl
  have s2 : (Arena.mk [{ generation := 0, entry := Entry.Present 5 }] 0 0 : Arena Nat).insert_raw 6 =
      Except.ok (Arena.mk [{ generation := 0, entry := Entry.Present 5 },
        { generation := 0, entry := Entry.Present 6 }] 0 0,
        { index := 1, generation := 0 }) := rfl
  have hmem : ({ index := 0, generation := 0 } : Id) ∈
      [({ index := 1, generation := 0 } : Id), { index := 0, generation := 0 }] := by decide
  have hreach : Reach (Arena.mk [{ generation := 1, entry := Entry.Free 0 },
      { generation := 0, entry := Entry.Present 6 }] 0 1 : Arena Nat)
      [{ index := 1, generation := 0 }, { index := 0, generation := 0 }] :=
    TraceFrom.remove (TraceFrom.insert (TraceFrom.insert TraceFrom.refl s1) s2) hmem
  have h := len_counts hreach
  exact ⟨h.2.2.1, h.2.2.2.2.2 _⟩

/-- C5: the claim (and the spec) say a `remove` that returns nothing
has no effect on the arena.  Through the public interface, the issued
handle `(0, 1)` (issued by the third call below) comes to match the
free slot 0 after a `clear`, and removing it returns `None` while
bumping the slot's generation from 1 to 2 and `free_count` from 1 to 2
— a partial effect on failure, contradicting the claim's dichotomy. -/
theorem remove_not_atomic :
    runPubIds (arenaEmpty Nat) [POp.insert 1, POp.remove { index := 0, generation := 0 },
        POp.insert 3, POp.clear, POp.insert 4, POp.remove { index := 0, generation := 0 }] =
      Except.ok (Arena.mk [{ generation := 1, entry := Entry.Free 0 }] 0 1,
        [{ index := 0, generation := 0 }, { index := 0, generation := 1 },
         { index := 0, generation := 0 }]) ∧
    (Arena.mk [{ generation := 1, entry := Entry.Free 0 }] 0 1 : Arena Nat).exists_raw
      { index := 0, generation := 1 } = true ∧
    (Arena.mk [{ generation := 1, entry := Entry.Free 0 }] 0 1 : Arena Nat).remove_raw
      { index := 0, generation := 1 } =
      (Arena.mk [{ generation := 2, entry := Entry.Free 0 }] 0 2, none) :=
  ⟨rfl, rfl, rfl⟩

/-- C6: forward iteration yields exactly the present values in
ascending slot order, backward iteration yields their reversal, and
when the free-count bookkeeping is consistent (true in every reachable
state) both directions yield exactly `len()` items.  One `Iter` model
covers `Iter`, `IterMut` and `IntoIter`, whose source bodies are
identical up to the reference kind of the items. -/
theorem iteration_order (a : Arena T) :
    (runCalls a.iter (List.replicate a.slots.length true)).1 = presentValues a.slots ∧
    (runCalls a.iter (List.replicate a.slots.length false)).1 = (presentValues a.slots).reverse ∧
    (a.free_count = countFree a.slots →
      (runCalls a.iter (List.replicate a.slots.length true)).1.length = a.len ∧
      (runCalls a.iter (List.replicate a.slots.length false)).1.length = a.len) := by
  have hle := countPresent_le a.slots
  have hpf := countPresent_add_countFree a.slots
  unfold Arena.iter
  have hf := run_forward a.slots.length a.slots a.len 0 hle
  have hb := run_backward a.slots.length a.slots a.len 0 hle
  refine ⟨hf, hb, fun hwf => ⟨?_, ?_⟩⟩
  · rw [hf, presentValues_length]
    unfold Arena.len
    omega
  · rw [hb, List.length_reverse, presentValues_length]
    unfold Arena.len
    omega

/-- C6 witness: on the arena with slots `[Free, Present 7]` (free count
1), forward iteration yields `[7]`, backward iteration yields `[7]`,
and both counts equal `len() = 1`. -/
theorem iteration_order_witness :
    (runCalls (Arena.mk [{ generation := 1, entry := Entry.Free 0 },
        { generation := 0, entry := Entry.Present 7 }] 0 1 : Arena Nat).iter
      (List.replicate (Arena.mk [{ generation := 1, entry := Entry.Free 0 },
        { generation := 0, entry := Entry.Present 7 }] 0 1 : Arena Nat).slots.length true)).1 =
      presentValues (Arena.mk [{ generation := 1, entry := Entry.Free 0 },
        { generation := 0, entry := Entry.Present 7 }] 0 1 : Arena Nat).slots ∧
    (runCalls (Arena.mk [{ generation := 1, entry := Entry.Free 0 },
        { generation := 0, entry := Entry.Present 7 }] 0 1 : Arena Nat).iter
      (List.replicate (Arena.mk [{ generation := 1, entry := Entry.Free 0 },
        { generation := 0, entry := Entry.Present 7 }] 0 1 : Arena Nat).slots.length true)).1.length =
      (Arena.mk [{ generation := 1, entry := Entry.Free 0 },
        { generation := 0, entry := Entry.Present 7 }] 0 1 : Arena Nat).len ∧
    (runCalls (Arena.mk [{ generation := 1, entry := Entry.Free 0 },
        { generation := 0, entry := Entry.Present 7 }] 0 1 : Arena Nat).iter
      (List.replicate (Arena.mk [{ generation := 1, entry := Entry.Free 0 },
        { generation := 0, entry := Entry.Present 7 }] 0 1 : Arena Nat).slots.length false)).1.length =
      (Arena.mk [{ generation := 1, entry := Entry.Free 0 },
        { generation := 0, entry := Entry.Present 7 }] 0 1 : Arena Nat).len := by
  have h := iteration_order (Arena.mk [{ generation := 1, entry := Entry.Free 0 },
      { generation := 0, entry := Entry.Present 7 }] 0 1 : Arena Nat)
  exact ⟨h.1, (h.2.2 (by decide)).1, (h.2.2 (by decide)).2⟩

/-- C7: in every iterator state reached from a consistent arena by any
interleaving `pre` of forward and backward calls, `size_hint` reports
the exact number of items a sufficiently long continuation `cs` still
yields (any `cs` of length at least the number of remaining present
slots is exhausting).  One `Iter` model covers `Iter`, `IterMut` and
`IntoIter`. -/
theorem size_hint_exact {a : Arena T} (hWF : a.free_count = countFree a.slots)
    (pre cs : List Bool)
    (hcs : countPresent ((runCalls a.iter pre).2).slots ≤ cs.length) :
    ((runCalls a.iter pre).2).sizeHint =
      ((runCalls ((runCalls a.iter pre).2) cs).1.length,
       some ((runCalls ((runCalls a.iter pre).2) cs).1.length)) := by
  have hg0 : GoodIter a.iter := goodIter_init hWF
  obtain ⟨hg1, hsum1, _⟩ := runCalls_spec hg0 pre
  obtain ⟨hg2, hsum2, hzero⟩ := runCalls_spec hg1 cs
  have h0 := hzero hcs
  obtain ⟨hle1, heq1⟩ := hg1
  unfold Iter.sizeHint
  have hlen : (runCalls ((runCalls a.iter pre).2) cs).1.length =
      ((runCalls a.iter pre).2).length - ((runCalls a.iter pre).2).returned := by
    omega
  rw [hlen]

/-- C7 witness: after one forward call on a three-slot arena with one
free slot, `size_hint` reports `(1, some 1)`, and one backward plus one
forward call indeed yield exactly one more item. -/
theorem size_hint_exact_witness :
    ((runCalls (Arena.mk [{ generation := 0, entry := Entry.Present 10 },
        { generation := 1, entry := Entry.Free 0 },
        { generation := 0, entry := Entry.Present 30 }] 1 1 : Arena Nat).iter [true]).2).sizeHint =
      ((runCalls ((runCalls (Arena.mk [{ generation := 0, entry := Entry.Present 10 },
          { generation := 1, entry := Entry.Free 0 },
          { generation := 0, entry := Entry.Present 30 }] 1 1 : Arena Nat).iter [true]).2)
        [false, true]).1.length,
       some ((runCalls ((runCalls (Arena.mk [{ generation := 0, entry := Entry.Present 10 },
          { generation := 1, entry := Entry.Free 0 },
          { generation := 0, entry := Entry.Present 30 }] 1 1 : Arena Nat).iter [true]).2)
        [false, true]).1.length)) ∧
    ((runCalls (Arena.mk [{ generation := 0, entry := Entry.Present 10 },
        { generation := 1, entry := Entry.Free 0 },
        { generation := 0, entry := Entry.Present 30 }] 1 1 : Arena Nat).iter [true]).2).sizeHint =
      (1, some 1) :=
  ⟨size_hint_exact (by decide) [true] [false, true] (by decide), rfl⟩

/-- C8: the panicking indexed accessors fail exactly when `get_raw` /
`get_mut_raw` return nothing, with a message naming the handle in the
`Id(index, generation)` rendering, and otherwise return exactly the
value the fallible accessors return (`get_mut_raw` coincides with
`get_raw` in this embedding, as in the source up to mutability). -/
theorem index_panics_iff (a : Arena T) (id : Id) :
    (∀ t : T, a.indexGet id = Except.ok t ↔ a.get_raw id = some t) ∧
    (a.indexGet id = Except.error ("Index " ++ idDisplay id ++ " does not exist in Arena") ↔
      a.get_raw id = none) ∧
    idDisplay id = "Id(" ++ toString id.index ++ ", " ++ toString id.generation ++ ")" ∧
    a.get_mut_raw id = a.get_raw id ∧
    a.indexGetMut id = a.indexGet id := by
  refine ⟨?_, ?_, rfl, rfl, rfl⟩
  · intro t
    unfold Arena.indexGet
    cases h : a.get_raw id with
    | none =>
      simp only []
      constructor
      · intro hcon
        exact Except.noConfusion hcon
      · intro hcon
        exact Option.noConfusion hcon
    | some t0 =>
      simp only []
      constructor
      · intro hok
        injection hok with ht
        rw [ht]
      · intro hsome
        injection hsome with ht
        rw [ht]
  · unfold Arena.indexGet
    cases h : a.get_raw id with
    | none => simp
    | some t0 =>
      simp only []
      constructor
      · intro hcon
        exact Except.noConfusion hcon
      · intro hcon
        exact Option.noConfusion hcon

/-- C9: building an arena from a list gives one generation-0 present
slot per item in order, no free slots, `first_free = 0`,
`free_count = 0`, `len()` equal to the list length, and handle
`(i, 0)` resolves to the i-th item. -/
theorem from_list_spec (l : List T) :
    (Arena.fromList l).slots.length = l.length ∧
    (Arena.fromList l).free_count = 0 ∧
    (Arena.fromList l).first_free = 0 ∧
    (Arena.fromList l).len = l.length ∧
    countFree (Arena.fromList l).slots = 0 ∧
    ∀ (i : Nat) (t : T), l[i]? = some t →
      (Arena.fromList l).slots[i]? = some { generation := 0, entry := Entry.Present t } ∧
      (Arena.fromList l).get_raw { index := i, generation := 0 } = some t := by
  refine ⟨by simp [Arena.fromList], rfl, rfl, by simp [Arena.fromList, Arena.len], ?_, ?_⟩
  · unfold Arena.fromList
    induction l with
    | nil => rfl
    | cons x rest ih =>
      simp only [List.map_cons]
      rw [countFree_cons]
      have hF : ({ generation := 0, entry := Entry.Present x } : Slot T).isFree = false := rfl
      rw [hF]
      simpa using ih
  · intro i t h
    have hlook : (Arena.fromList l).slots[i]? =
        some { generation := 0, entry := Entry.Present t } := by
      unfold Arena.fromList
      simp only []
      rw [List.getElem?_map, h]
      rfl
    refine ⟨hlook, ?_⟩
    unfold Arena.get_raw
    simp only [hlook]
    rfl

/-- C9 witness: from `[10, 20, 30]`, the arena has length 3 and handle
`(1, 0)` resolves to `20`. -/
theorem from_list_spec_witness :
    (Arena.fromList ([10, 20, 30] : List Nat)).len = 3 ∧
    (Arena.fromList ([10, 20, 30] : List Nat)).get_raw { index := 1, generation := 0 } =
      some 20 := by
  have h := from_list_spec ([10, 20, 30] : List Nat)
  exact ⟨by simpa using h.2.2.2.1, (h.2.2.2.2.2 1 20 rfl).2⟩

/-- C10: the free-list invariant does not hold in all publicly
reachable states, and the `unreachable!()` branch does execute.  After
`insert 1; remove (0,0); insert 2 (issues (0,1)); clear; insert 3;
remove (0,0)`, the issued handle `(0,1)` matches the free slot 0
(`contains` true, `get` nothing); removing it drives `free_count` to 2
while only one slot is `Free` (invariant broken), and two further
inserts then execute the `unreachable!()` arm of `free_index`. -/
theorem free_list_breakdown :
    runPubIds (arenaEmpty Nat) [POp.insert 1, POp.remove { index := 0, generation := 0 },
        POp.insert 2, POp.clear, POp.insert 3, POp.remove { index := 0, generation := 0 }] =
      Except.ok (Arena.mk [{ generation := 1, entry := Entry.Free 0 }] 0 1,
        [{ index := 0, generation := 0 }, { index := 0, generation := 1 },
         { index := 0, generation := 0 }]) ∧
    (Arena.mk [{ generation := 1, entry := Entry.Free 0 }] 0 1 : Arena Nat).exists_raw
      { index := 0, generation := 1 } = true ∧
    (Arena.mk [{ generation := 1, entry := Entry.Free 0 }] 0 1 : Arena Nat).get_raw
      { index := 0, generation := 1 } = none ∧
    runPubIds (arenaEmpty Nat) [POp.insert 1, POp.remove { index := 0, generation := 0 },
        POp.insert 2, POp.clear, POp.insert 3, POp.remove { index := 0, generation := 0 },
        POp.remove { index := 0, generation := 1 }] =
      Except.ok (Arena.mk [{ generation := 2, entry := Entry.Free 0 }] 0 2,
        [{ index := 0, generation := 0 }, { index := 0, generation := 1 },
         { index := 0, generation := 0 }]) ∧
    countFree ([{ generation := 2, entry := Entry.Free 0 }] : List (Slot Nat)) = 1 ∧
    runPub (arenaEmpty Nat) [POp.insert 1, POp.remove { index := 0, generation := 0 },
        POp.insert 2, POp.clear, POp.insert 3, POp.remove { index := 0, generation := 0 },
        POp.remove { index := 0, generation := 1 }, POp.insert 4, POp.insert 5] =
      Except.error "internal error: entered unreachable code" :=
  ⟨rfl, rfl, rfl, rfl, rfl, rfl⟩


/-- C6 counterexample: the public issued-handle trace `insert 1;
remove (0,0); insert 2 (issues (0,1)); clear; insert 3; remove (0,0);
remove (0,1); insert 4` reaches the arena `[{gen 2, Present 4}]` with
`free_count = 1` although no slot is free (the C5/C10 corruption).
There `len() = 1 - 1 = 0`, yet a full forward traversal yields `[4]`
and a full backward traversal yields `[4]` — one item each, not
`len()` items — so the claim's count-equals-len conjunct fails on a
reachable arena. -/
theorem iteration_count_counterexample :
    runPubIds (arenaEmpty Nat) [POp.insert 1, POp.remove { index := 0, generation := 0 },
        POp.insert 2, POp.clear, POp.insert 3, POp.remove { index := 0, generation := 0 },
        POp.remove { index := 0, generation := 1 }, POp.insert 4] =
      Except.ok (Arena.mk [{ generation := 2, entry := Entry.Present 4 }] 0 1,
        [{ index := 0, generation := 0 }, { index := 0, generation := 1 },
         { index := 0, generation := 0 }, { index := 0, generation := 2 }]) ∧
    (Arena.mk [{ generation := 2, entry := Entry.Present 4 }] 0 1 : Arena Nat).len = 0 ∧
    (runCalls (Arena.mk [{ generation := 2, entry := Entry.Present 4 }] 0 1 : Arena Nat).iter
      (List.replicate 1 true)).1 = [4] ∧
    (runCalls (Arena.mk [{ generation := 2, entry := Entry.Present 4 }] 0 1 : Arena Nat).iter
      (List.replicate 1 false)).1 = [4] :=
  ⟨rfl, rfl, rfl, rfl⟩

/-- C7 counterexample: on the same publicly reachable corrupted arena
`[{gen 2, Present 4}]` with `free_count = 1`, the freshly created
iterator reports `size_hint = (0, some 0)` — `length = len() = 0`,
`returned = 0` — yet a `next` call still yields one item, so the
reported size is not the number of items actually yielded from that
state. -/
theorem size_hint_counterexample :
    runPubIds (arenaEmpty Nat) [POp.insert 1, POp.remove { index := 0, generation := 0 },
        POp.insert 2, POp.clear, POp.insert 3, POp.remove { index := 0, generation := 0 },
        POp.remove { index := 0, generation := 1 }, POp.insert 4] =
      Except.ok (Arena.mk [{ generation := 2, entry := Entry.Present 4 }] 0 1,
        [{ index := 0, generation := 0 }, { index := 0, generation := 1 },
         { index := 0, generation := 0 }, { index := 0, generation := 2 }]) ∧
    ((Arena.mk [{ generation := 2, entry := Entry.Present 4 }] 0 1 : Arena Nat).iter).sizeHint =
      (0, some 0) ∧
    (runCalls (Arena.mk [{ generation := 2, entry := Entry.Present 4 }] 0 1 : Arena Nat).iter
      [true]).1.length = 1 :=
  ⟨rfl, rfl, rfl⟩

end GenArena
